import Mathlib

/-!
Verification development for the homescript-dev/server event engine.

The Go sources are shallowly embedded: pure functions become Lean
functions, stateful methods become explicit state passing, and the
scheduler tick becomes a function from a scheduler state and a clock
instant to a new state plus the list of actions performed.  `float64`
values appearing in the sources are modelled as `Rat` (the only float
operations the embedded code performs are exact injections and
comparisons with zero, which `Rat` reproduces exactly).  Go maps are
modelled as association lists in iteration order; where Go map keys are
unique by construction the lists carry a `Nodup` side condition.
-/

namespace HS

/-! ## Value domain (internal/executor/lua.go, toLuaValue / fromLuaValue)

`Value` is the host-side (Go `interface{}`) value domain that crosses
the script boundary: nil, bool, the integer kinds, the float kinds,
string, `[]byte`, `[]interface{}` and `map[string]interface{}`.
`LValue` is the gopher-lua value domain: LNil, LBool, LNumber (a
float64), LString and tables.  Bytes are modelled as lists of byte
values; `bytesToString` models the Go conversion `string(b)` (byte i
becomes the code point of byte i). -/

inductive Value where
  | null : Value
  | bool (b : Bool) : Value
  | int (n : Int) : Value
  | float (q : Rat) : Value
  | str (s : String) : Value
  | bytes (bs : List Nat) : Value
  | list (xs : List Value) : Value
  | map (kvs : List (String × Value)) : Value

inductive LKey where
  | knum (q : Rat) : LKey
  | kstr (s : String) : LKey

inductive LValue where
  | nil : LValue
  | lbool (b : Bool) : LValue
  | lnumber (q : Rat) : LValue
  | lstring (s : String) : LValue
  | ltable (entries : List (LKey × LValue)) : LValue

def bytesToString (bs : List Nat) : String :=
  String.mk (bs.map Char.ofNat)

/-- Go's conversion `int(f)` of a float64 to int truncates toward zero;
on our rational model that is T-division of numerator by denominator. -/
def truncQ (q : Rat) : Int :=
  Int.tdiv q.num (q.den : Int)

mutual

/-- internal/executor/lua.go, `toLuaValue`: host values to Lua values.
Integer and float kinds all become LNumber; `[]byte` becomes a Lua
string of the same bytes; a map becomes a table keyed by its (unique)
string keys; a slice becomes a table keyed 1..n. -/
def toLuaValue : Value → LValue
  | .null => .nil
  | .bool b => .lbool b
  | .int n => .lnumber (n : Rat)
  | .float q => .lnumber q
  | .str s => .lstring s
  | .bytes bs => .lstring (bytesToString bs)
  | .map kvs => .ltable (toLuaMapEntries kvs)
  | .list xs => .ltable (toLuaListEntries 1 xs)

/-- The `RawSetString` loop of `toLuaValue` on a fresh table. -/
def toLuaMapEntries : List (String × Value) → List (LKey × LValue)
  | [] => []
  | (k, v) :: rest => (.kstr k, toLuaValue v) :: toLuaMapEntries rest

/-- The `RawSetInt(i+1, …)` loop of `toLuaValue` on a fresh table. -/
def toLuaListEntries : Int → List Value → List (LKey × LValue)
  | _, [] => []
  | i, v :: rest => (.knum (i : Rat), toLuaValue v) :: toLuaListEntries (i + 1) rest

end

/-- The first `ForEach` of `fromLuaValue`: the running maximum of
`int(num)` over the numeric keys of the table (initially 0). -/
def maxNLoop : Int → List (LKey × LValue) → Int
  | acc, [] => acc
  | acc, (.knum q, _) :: rest =>
      maxNLoop (if acc < truncQ q then truncQ q else acc) rest
  | acc, (.kstr _, _) :: rest => maxNLoop acc rest

/-- `arr[i] = v` for an in-range index; Go would panic out of range
(unreachable for tables produced by `toLuaValue`). -/
def setAt (arr : List Value) (i : Int) (v : Value) : List Value :=
  if 0 ≤ i ∧ i < (arr.length : Int) then arr.set i.toNat v else arr

mutual

/-- internal/executor/lua.go, `fromLuaValue`: Lua values to host values.
LNumber always comes back as float64; the default branch stringifies,
so LNil comes back as the string "nil".  A table with a positive
maximal numeric key is rebuilt as a slice, otherwise as a map of its
string-keyed entries. -/
def fromLuaValue : LValue → Value
  | .nil => .str "nil"
  | .lbool b => .bool b
  | .lnumber q => .float q
  | .lstring s => .str s
  | .ltable entries =>
      if 0 < maxNLoop 0 entries then
        .list (arrLoop entries (List.replicate (maxNLoop 0 entries).toNat .null))
      else
        .map (objLoop entries)

/-- The array-building `ForEach`: every numeric key writes slot
`int(num) - 1` of the accumulator. -/
def arrLoop : List (LKey × LValue) → List Value → List Value
  | [], arr => arr
  | (.knum q, v) :: rest, arr => arrLoop rest (setAt arr (truncQ q - 1) (fromLuaValue v))
  | (.kstr _, _) :: rest, arr => arrLoop rest arr

/-- The object-building `ForEach`: string keys only. -/
def objLoop : List (LKey × LValue) → List (String × Value)
  | [] => []
  | (.kstr s, v) :: rest => (s, fromLuaValue v) :: objLoop rest
  | (.knum _, _) :: rest => objLoop rest

end

mutual

/-- The sub-domain of `Value` on which the two conversions are mutually
inverse: no null, no int, no bytes, no empty list, map keys unique. -/
def goodValue : Value → Bool
  | .null => false
  | .int _ => false
  | .bytes _ => false
  | .bool _ => true
  | .float _ => true
  | .str _ => true
  | .list xs => !xs.isEmpty && goodList xs
  | .map kvs => goodMap kvs

def goodList : List Value → Bool
  | [] => true
  | v :: rest => goodValue v && goodList rest

def goodMap : List (String × Value) → Bool
  | [] => true
  | (k, v) :: rest =>
      !(rest.any (fun kv => kv.1 == k)) && goodValue v && goodMap rest

end

/-! ## Events (internal/types/types.go, `Event`)

`Timestamp` is immaterial to the claims (it is `time.Now()` at
production) and is omitted; `Data` is the association-list model of the
`map[string]interface{}` payload, in iteration order. -/

structure Event where
  source : String
  type : String
  device : String
  attr : String
  topic : String
  data : List (String × Value)

/-- First-match association-list lookup (the Go map read `m[k]`;
coincides with the map for `Nodup` key lists). -/
def lookupKey (k : String) : List (String × Value) → Option Value
  | [] => none
  | (k', v) :: rest => if k' = k then some v else lookupKey k rest

/-! ## Bus adapter device handler (mqtt client, `makeDeviceHandler`)

The handler body after a payload has been decoded to a state map
`state`: one `state_change` event per key, skipping the housekeeping
keys `linkquality` and `last_seen`; each event's data starts with the
key's own pair and then carries every other pair of the payload. -/

def housekeeping (k : String) : Bool :=
  k == "linkquality" || k == "last_seen"

def stateChangeEvent (devId topic : String) (state : List (String × Value))
    (attr : String) (v : Value) : Event :=
  { source := "device", type := "state_change", device := devId, attr := attr,
    topic := topic,
    data := (attr, v) :: state.filter (fun kv => ¬ (kv.1 = attr)) }

/-- The `for attr, value := range state` loop of `makeDeviceHandler`
that routes one event per non-housekeeping key. -/
def deviceStateEvents (devId topic : String) :
    List (String × Value) → List (String × Value) → List Event
  | _, [] => []
  | state, (attr, v) :: rest =>
      if housekeeping attr then deviceStateEvents devId topic state rest
      else stateChangeEvent devId topic state attr v ::
        deviceStateEvents devId topic state rest

/-- The handler's event fan-out for a decoded payload. -/
def handleDecodedState (devId topic : String) (state : List (String × Value)) :
    List Event :=
  deviceStateEvents devId topic state state

/-! ## Worker pool (executor pool, `Submit`)

`Submit` is a Go `select` with a buffered-channel send, a receive on
the closed-when-stopping `stopChan`, and a `default`.  Go chooses
uniformly among the *ready* cases and takes `default` only when none
is ready, so `Submit` is a relation, not a function: when the pool is
stopping and the queue still has room, both the send and the stop
branch are ready and either may be taken. -/

structure Task where
  scriptPath : String
  eventId : Nat

structure PoolState where
  queue : List Task
  capacity : Nat
  stopping : Bool

inductive SubmitOutcome where
  | enqueued : SubmitOutcome
  | rejectedStopping : SubmitOutcome
  | droppedFull : SubmitOutcome

/-- One execution of `Pool.Submit`: the send case is ready iff the
buffered channel has room; the stop case is ready iff `stopChan` is
closed; `default` fires only when neither is ready. -/
inductive SubmitStep :
    PoolState → Task → PoolState × SubmitOutcome → Prop where
  | send (p : PoolState) (t : Task) (h : p.queue.length < p.capacity) :
      SubmitStep p t ({ p with queue := p.queue ++ [t] }, .enqueued)
  | stop (p : PoolState) (t : Task) (h : p.stopping = true) :
      SubmitStep p t (p, .rejectedStopping)
  | dflt (p : PoolState) (t : Task) (h : ¬ p.queue.length < p.capacity)
      (h' : p.stopping = false) :
      SubmitStep p t (p, .droppedFull)

/-! ## Device registry (internal/devices/manager.go)

The manager's state is the device inventory, the per-device snapshot
map `states`, and the MQTT connection flag.  `Set` publishes but never
writes `states`; `UpdateState` merges into `states` under the write
lock; the remaining exported methods only read. -/

structure MQTTConfig where
  stateTopic : String
  commandTopic : String

structure Device where
  id : String
  name : String
  dtype : String
  model : String
  vendor : String
  mqtt : MQTTConfig

structure ManagerState where
  devices : List (String × Device)
  states : List (String × List (String × Value))
  connected : Bool

structure Publish where
  topic : String
  payload : String

/-- Go `fmt` rendering used by the Frigate per-attribute coercion:
strings verbatim, bools "ON"/"OFF", numbers in decimal (`%d` / `%v`);
the remaining kinds only arise through the `%v` fallback and are
rendered by a fixed placeholder tag (their exact Go spelling is
irrelevant to every claim). -/
def coerceScalar : Value → String
  | .str s => s
  | .bool b => if b then "ON" else "OFF"
  | .int n => toString n
  | .float q => toString q
  | .null => "<nil>"
  | .bytes _ => "<bytes>"
  | .list _ => "<list>"
  | .map _ => "<map>"

/-- A JSON body for the default single-topic publish; the claims never
inspect it beyond which publishes happen, so the rendering is an
opaque but deterministic tag of the attribute list. -/
def jsonBody (attrs : List (String × Value)) : String :=
  "json:" ++ String.intercalate "," (attrs.map Prod.fst)

def lookupDevice (id : String) : List (String × Device) → Option Device
  | [] => none
  | (k, d) :: rest => if k = id then some d else lookupDevice id rest

/-- internal/devices/manager.go, `Set`: resolve the device, require a
live connection, then either one publish per attribute (Frigate
cameras, scalar-coerced, to `<command_topic>/<attr>/set`) or a single
JSON publish to the command topic.  The returned state is the full
manager state after the call.  Publish-token failures (timeout, token
error) only change the returned error and may cut the Frigate loop
short; they never touch the manager state, so they are not modelled. -/
def managerSet (m : ManagerState) (id : String) (attrs : List (String × Value)) :
    ManagerState × List Publish × Except String Unit :=
  match lookupDevice id m.devices with
  | none => (m, [], .error ("device not found: " ++ id))
  | some dev =>
      if ¬ m.connected then (m, [], .error "MQTT client not connected")
      else if dev.dtype = "camera" ∧ dev.vendor = "Frigate NVR" then
        (m, attrs.map (fun kv =>
            { topic := dev.mqtt.commandTopic ++ "/" ++ kv.1 ++ "/set",
              payload := coerceScalar kv.2 }), .ok ())
      else
        (m, [{ topic := dev.mqtt.commandTopic, payload := jsonBody attrs }], .ok ())

/-- Merge one key into a snapshot (Go map assignment). -/
def snapshotPut (k : String) (v : Value) :
    List (String × Value) → List (String × Value)
  | [] => [(k, v)]
  | (k', v') :: rest =>
      if k' = k then (k', v) :: rest else (k', v') :: snapshotPut k v rest

def snapshotMerge (snap upd : List (String × Value)) : List (String × Value) :=
  upd.foldl (fun acc kv => snapshotPut kv.1 kv.2 acc) snap

def statesPut (id : String) (snap : List (String × Value)) :
    List (String × List (String × Value)) → List (String × List (String × Value))
  | [] => [(id, snap)]
  | (k, s) :: rest =>
      if k = id then (k, snap) :: rest else (k, s) :: statesPut id snap rest

def lookupState (id : String) :
    List (String × List (String × Value)) → Option (List (String × Value))
  | [] => none
  | (k, s) :: rest => if k = id then some s else lookupState id rest

/-- internal/devices/manager.go, `UpdateState`: unknown device ids are
ignored; otherwise the update map is merged into the stored snapshot. -/
def managerUpdateState (m : ManagerState) (id : String)
    (upd : List (String × Value)) : ManagerState :=
  match lookupDevice id m.devices with
  | none => m
  | some _ =>
      let old := (lookupState id m.states).getD []
      { m with states := statesPut id (snapshotMerge old upd) m.states }

/-- The exported mutating/reading surface of the manager. -/
inductive ManagerOp where
  | get (id : String) : ManagerOp
  | set (id : String) (attrs : List (String × Value)) : ManagerOp
  | updateState (id : String) (upd : List (String × Value)) : ManagerOp
  | setClient (connected : Bool) : ManagerOp
  | getDevice (id : String) : ManagerOp
  | listDevices : ManagerOp

def ManagerOp.isUpdateState : ManagerOp → Bool
  | .updateState _ _ => true
  | _ => false

/-- State effect of each exported manager method. -/
def applyManagerOp (m : ManagerState) : ManagerOp → ManagerState
  | .get _ => m
  | .set id attrs => (managerSet m id attrs).1
  | .updateState id upd => managerUpdateState m id upd
  | .setClient c => { m with connected := c }
  | .getDevice _ => m
  | .listDevices => m

/-! ## DoSiblings (internal/executor/lua.go, `registerDoSiblings`)

`Execute` binds, in order: the `SCRIPT_DIR` / `SCRIPT_PATH` globals,
the API tables of `registerAPI`, and the `DoSiblings` closure.  The
closure reads the calling script's directory and synchronously runs
every other regular `*.lua` file there (same event), returning the
count of siblings that ran without error, or Lua `false` when the
directory read fails.  The directory listing is `Option`al (`none` =
`os.ReadDir` error); success of each `e.Execute` call is abstracted by
the oracle `runOk`. -/

structure DirEntry where
  name : String
  isDir : Bool

/-- The globals `Execute` sets, in binding order. -/
def executeGlobals : List String :=
  ["SCRIPT_DIR", "SCRIPT_PATH", "event", "state", "device", "log", "timer",
   "udp", "DoSiblings"]

/-- A sibling is a regular `*.lua` file other than the calling script. -/
def isSibling (curName : String) (e : DirEntry) : Bool :=
  !e.isDir && e.name.endsWith ".lua" && e.name != curName

/-- The entry loop of `DoSiblings`: returns the scripts executed (each
with the calling script's event) and the success count. -/
def doSiblingsLoop (runOk : String → Bool) (curName : String) (ev : Event) :
    List DirEntry → List (String × Event) × Nat
  | [] => ([], 0)
  | e :: rest =>
      let (runs, n) := doSiblingsLoop runOk curName ev rest
      if e.isDir then (runs, n)
      else if ¬ e.name.endsWith ".lua" then (runs, n)
      else if e.name = curName then (runs, n)
      else ((e.name, ev) :: runs, if runOk e.name then n + 1 else n)

/-- `DoSiblings` proper: Lua `false` (modelled `none`) when the
directory cannot be read, otherwise the executed count. -/
def doSiblings (runOk : String → Bool) (curName : String) (ev : Event)
    (dir : Option (List DirEntry)) : List (String × Event) × Option Nat :=
  match dir with
  | none => ([], none)
  | some entries =>
      let (runs, n) := doSiblingsLoop runOk curName ev entries
      (runs, some n)

/-! ## Interpreter tracker lifecycle (internal/executor/lua.go)

One interpreter's tracker: `refCount` from `luaStateTracker`, the Lua
globals `__timer_count__` (the active-timer count) and
`__timers_created__`.  `closedAndRemoved` is the state after `L.Close()`
plus removal from `stateTrackers` (indistinguishable, for the tracker
map, from never having been tracked). -/

structure Tracker where
  refCount : Int
  activeTimers : Nat
  timersCreated : Bool
deriving DecidableEq

inductive InterpStatus where
  | tracked (t : Tracker) : InterpStatus
  | closedAndRemoved : InterpStatus
deriving DecidableEq

/-- `addStateReference`: create the tracker if absent (refCount 0) and
increment. -/
def addStateReference : InterpStatus → InterpStatus
  | .tracked t => .tracked { t with refCount := t.refCount + 1 }
  | .closedAndRemoved => .tracked { refCount := 1, activeTimers := 0, timersCreated := false }

/-- `releaseStateReference`: decrement; at `count <= 0` the state is
closed unless `__timer_count__` is still positive, in which case the
tracker is kept alive for the outstanding timers. -/
def releaseStateReference : InterpStatus → InterpStatus
  | .closedAndRemoved => .closedAndRemoved
  | .tracked t =>
      let count := t.refCount - 1
      if count ≤ 0 then
        if t.activeTimers > 0 then .tracked { t with refCount := count }
        else .closedAndRemoved
      else .tracked { t with refCount := count }

/-- `timerAfter` / `timerAt` / `timerEvery`: increment
`__timer_count__` and set `__timers_created__`. -/
def createTimer : InterpStatus → InterpStatus
  | .tracked t => .tracked { t with activeTimers := t.activeTimers + 1, timersCreated := true }
  | .closedAndRemoved => .closedAndRemoved

/-- The tail of `Execute`: the initial reference is released unless
timers were created, in which case it is transferred to (retained for)
the timer set. -/
def executeFinish : InterpStatus → InterpStatus
  | .tracked t =>
      if t.timersCreated then .tracked t else releaseStateReference (.tracked t)
  | .closedAndRemoved => .closedAndRemoved

/-- Modelled from the spec: the scheduler-side timer-removal path (a
one-shot fire or a `timer.cancel`) is not among the sources — the
schedulers present are the older bytecode variants — so it is taken
from the spec's words: removal decrements `tracker.active_timers`, and
when no timers remain the reference retained for the timer set is
dropped through `releaseStateReference` (the executor's public
`ReleaseStateReference` is documented as "used by scheduler"), closing
the interpreter once both counters are zero. -/
def timerRemoved : InterpStatus → InterpStatus
  | .tracked t =>
      let t' : Tracker := { t with activeTimers := t.activeTimers - 1 }
      if t'.activeTimers = 0 then releaseStateReference (.tracked t')
      else .tracked t'
  | .closedAndRemoved => .closedAndRemoved

/-- A whole `Execute` call that creates `k` timers: track, create the
timers during the script body, then run the release logic at the end. -/
def executeScript (k : Nat) : InterpStatus :=
  executeFinish (createTimer^[k] (addStateReference .closedAndRemoved))

/-! ## Decimal rendering (Go `fmt` `%d` / `%02d`)

The scheduler builds its patterns with `fmt.Sprintf("%02d", n)`; the
rendering is re-implemented here so that "every character is a decimal
digit" is provable. -/

def digitChar (d : Nat) : Char := Char.ofNat (48 + d)

/-- Decimal rendering with a structural fuel (any fuel above the value
itself is enough; `natToStr` passes `n + 1`). -/
def natToStrAux : Nat → Nat → String
  | 0, _ => ""
  | fuel + 1, n =>
      if n < 10 then String.singleton (digitChar n)
      else natToStrAux fuel (n / 10) ++ String.singleton (digitChar (n % 10))

def natToStr (n : Nat) : String := natToStrAux (n + 1) n

/-- `%02d`: zero-padded to width two (wider numbers print whole). -/
def pad2 (n : Nat) : String :=
  if n < 10 then "0" ++ natToStr n else natToStr n

/-! ## Scheduler (internal/scheduler/scheduler.go, the variant that
also matches `HH_*` and the sunrise/sunset offset directories)

Wall-clock instants are modelled by their field projections (the code
only ever projects them); sun times additionally need minute
arithmetic (`baseTime.Add(offset)`) and are therefore modelled as
absolute minute counts.  The Go zero `time.Time` (produced when no
coordinates are configured) is `none`.  The astronomical library
`sunrise.SunriseSunset` is the abstract parameter `alg`. -/

structure DateTime where
  year : Int
  month : Nat
  day : Nat
  hour : Nat
  minute : Nat
  second : Nat
  weekday : Nat
  unix : Int
deriving DecidableEq

structure SDate where
  year : Int
  month : Nat
  day : Nat
deriving DecidableEq

def DateTime.date (n : DateTime) : SDate := ⟨n.year, n.month, n.day⟩

structure SunTime where
  absMinutes : Int
deriving DecidableEq

/-- `time.Time.Hour()` of a sun time. -/
def SunTime.hour (t : SunTime) : Nat := ((t.absMinutes % 1440).toNat) / 60

/-- `time.Time.Minute()` of a sun time. -/
def SunTime.minute (t : SunTime) : Nat := ((t.absMinutes % 1440).toNat) % 60

/-- `baseTime.Add(time.Duration(offsetMinutes) * time.Minute)`. -/
def SunTime.shift (t : SunTime) (mins : Int) : SunTime := ⟨t.absMinutes + mins⟩

def SunCalc := Rat → Rat → SDate → SunTime × SunTime

structure STimer where
  id : String
  triggerTime : Int
  hasCallback : Bool
  recurring : Bool
  interval : Int
deriving DecidableEq

structure SchedState where
  latitude : Rat
  longitude : Rat
  lastMinute : Int
  lastHour : Int
  lastDay : Int
  sunriseTime : Option SunTime
  sunsetTime : Option SunTime
  timers : List STimer

/-- The filesystem the scheduler consults: whether
`events/time/<pattern>/handler.lua` exists, and the `os.ReadDir`
listings of `events/time/sunrise` and `events/time/sunset`
(`none` = read error). -/
structure EventsFS where
  handlerExists : String → Bool
  sunriseEntries : Option (List DirEntry)
  sunsetEntries : Option (List DirEntry)

/-- `updateSunTimes`: with no coordinates (`latitude == 0 &&
longitude == 0`) both sun times become the zero time; otherwise they
are computed astronomically. -/
def updateSunTimes (alg : SunCalc) (lat lon : Rat) (d : SDate) :
    Option SunTime × Option SunTime :=
  if lat = 0 ∧ lon = 0 then (none, none)
  else (some (alg lat lon d).1, some (alg lat lon d).2)

/-- `New`: fields initialised as in the source (`lastMinute = -1`,
`lastHour = -1`, `lastDay = now.Day()`), then `updateSunTimes`. -/
def schedNew (alg : SunCalc) (lat lon : Rat) (now : DateTime) : SchedState :=
  let sun := updateSunTimes alg lat lon now.date
  { latitude := lat, longitude := lon, lastMinute := -1, lastHour := -1,
    lastDay := (now.day : Int), sunriseTime := sun.1, sunsetTime := sun.2,
    timers := [] }

/-- `triggerEvent`: the canonical time event routed for a pattern. -/
def timeEvent (p : String) (now : DateTime) : Event :=
  { source := "time", type := p, device := "", attr := "", topic := "",
    data := [("time", .int now.unix), ("hour", .int now.hour),
             ("minute", .int now.minute), ("second", .int now.second),
             ("weekday", .int now.weekday)] }

/-- `checkAndTrigger`: route the event iff
`events/time/<pattern>/handler.lua` exists. -/
def checkAndTrigger (fs : EventsFS) (p : String) (now : DateTime) : List Event :=
  if fs.handlerExists p then [timeEvent p now] else []

/-- `fmt.Sprintf("*_%02d", minute)`. -/
def anyHourPattern (m : Nat) : String := "*_" ++ pad2 m

/-- `fmt.Sprintf("%02d_*", hour)`. -/
def anyMinutePattern (h : Nat) : String := pad2 h ++ "_*"

/-- `fmt.Sprintf("%02d_%02d", hour, minute)`. -/
def fmtHM (h m : Nat) : String := pad2 h ++ "_" ++ pad2 m

/-- `fmt.Sscanf(.., "%02d_%02d", ..)` digit groups: one or two digits. -/
def takeDigits2 : List Char → Option (Nat × List Char)
  | [] => none
  | c1 :: rest =>
      if c1.isDigit then
        match rest with
        | c2 :: rest2 =>
            if c2.isDigit then some ((c1.toNat - 48) * 10 + (c2.toNat - 48), rest2)
            else some (c1.toNat - 48, rest)
        | [] => some (c1.toNat - 48, [])
      else none

/-- The offset-directory name parse of `checkOffsetDirectory`: names
shorter than six runes or without a `-`/`+` sign are skipped, then
`Sscanf("%02d_%02d")` (trailing characters are ignored by `Sscanf`);
the result is the signed offset in minutes. -/
def parseOffset (name : String) : Option Int :=
  if name.length < 6 then none
  else
    match name.data with
    | [] => none
    | c :: rest =>
        if c = '-' ∨ c = '+' then
          match takeDigits2 rest with
          | none => none
          | some (oh, rest1) =>
              match rest1 with
              | '_' :: rest2 =>
                  match takeDigits2 rest2 with
                  | none => none
                  | some (om, _) =>
                      let mins : Int := oh * 60 + om
                      some (if c = '-' then -mins else mins)
              | _ => none
        else none

/-- `checkOffsetDirectory`: for every subdirectory whose name parses as
a signed offset, if base + offset lands on the current hour/minute and
`<dir>/handler.lua` exists, route the `sunrise/<name>` (resp.
`sunset/<name>`) event. -/
def offsetDirEvents (fs : EventsFS) (base : SunTime) (now : DateTime)
    (pathStart : String) (entries : Option (List DirEntry)) : List Event :=
  match entries with
  | none => []
  | some es =>
      es.filterMap (fun e =>
        if e.isDir then
          match parseOffset e.name with
          | some off =>
              if (base.shift off).hour = now.hour ∧
                  (base.shift off).minute = now.minute then
                if fs.handlerExists (pathStart ++ e.name) then
                  some (timeEvent (pathStart ++ e.name) now)
                else none
              else none
          | none => none
        else none)

/-- `checkSunOffsetEvents`: skipped whenever either sun time is the
zero time. -/
def checkSunOffsetEvents (fs : EventsFS) (st : SchedState) (now : DateTime) :
    List Event :=
  match st.sunriseTime, st.sunsetTime with
  | some sr, some ss =>
      offsetDirEvents fs sr now "sunrise/" fs.sunriseEntries ++
      offsetDirEvents fs ss now "sunset/" fs.sunsetEntries
  | _, _ => []

/-- The sunrise/sunset check inside `checkTimeEvents`: trigger iff the
sun time is non-zero and its hour and minute equal the current ones. -/
def sunCheck (fs : EventsFS) (o : Option SunTime) (p : String)
    (now : DateTime) : List Event :=
  match o with
  | some t =>
      if t.hour = now.hour ∧ t.minute = now.minute then checkAndTrigger fs p now
      else []
  | none => []

/-- `checkTimeEvents`: recompute sun times on day change; on a minute
change route the wildcard, exact, sunrise/sunset and offset events; on
an hour change at minute zero route `every_hour`. -/
def checkTimeEvents (fs : EventsFS) (alg : SunCalc) (st : SchedState)
    (now : DateTime) : SchedState × List Event :=
  let st1 :=
    if (now.day : Int) ≠ st.lastDay then
      let sun := updateSunTimes alg st.latitude st.longitude now.date
      { st with
        lastDay := (now.day : Int)
        sunriseTime := sun.1
        sunsetTime := sun.2 }
    else st
  let minutePart :=
    if (now.minute : Int) ≠ st1.lastMinute then
      let st2 := { st1 with lastMinute := (now.minute : Int) }
      let evs :=
        checkAndTrigger fs "*_*" now
        ++ checkAndTrigger fs (anyHourPattern now.minute) now
        ++ checkAndTrigger fs (anyMinutePattern now.hour) now
        ++ checkAndTrigger fs (fmtHM now.hour now.minute) now
        ++ sunCheck fs st2.sunriseTime "sunrise" now
        ++ sunCheck fs st2.sunsetTime "sunset" now
        ++ checkSunOffsetEvents fs st2 now
      (st2, evs)
    else (st1, [])
  let st3 := minutePart.1
  let hourPart :=
    if (now.hour : Int) ≠ st3.lastHour ∧ now.minute = 0 then
      ({ st3 with lastHour := (now.hour : Int) },
       checkAndTrigger fs "every_hour" now)
    else (st3, [])
  (hourPart.1, minutePart.2 ++ hourPart.2)

/-- `checkTimers`: every timer with `triggerTime <= now` fires (its
callback is dispatched to a fresh goroutine when present); recurring
timers are re-armed to `now + interval`, one-shot timers are removed.
The traversal order is the Go map iteration order of `s.timers`,
modelled by the list order. -/
def checkTimers (nowSec : Int) : List STimer → List String × List STimer
  | [] => ([], [])
  | t :: rest =>
      let tm := checkTimers nowSec rest
      if t.triggerTime ≤ nowSec then
        ((if t.hasCallback then [t.id] else []) ++ tm.1,
         (if t.recurring then [{ t with triggerTime := nowSec + t.interval }]
          else []) ++ tm.2)
      else (tm.1, t :: tm.2)

inductive SchedAction where
  | fire (id : String) : SchedAction
  | emit (e : Event) : SchedAction

/-- One iteration of the `run` tick loop: `checkTimers` first, then —
only at second zero — `checkTimeEvents`.  The action list records, in
program order, the callback dispatches and the events handed to the
router. -/
def tick (fs : EventsFS) (alg : SunCalc) (st : SchedState) (now : DateTime) :
    SchedState × List SchedAction :=
  let tm := checkTimers now.unix st.timers
  let st1 := { st with timers := tm.2 }
  if now.second = 0 then
    let ce := checkTimeEvents fs alg st1 now
    (ce.1, tm.1.map SchedAction.fire ++ ce.2.map SchedAction.emit)
  else (st1, tm.1.map SchedAction.fire)

/-- The `runServer` coordinate gate (cmd main): IP geolocation is
consulted only when both flags are exactly zero; otherwise the flag
coordinates are passed to the scheduler untouched. -/
def resolveCoords (lat lon : Rat) (geo : Option (Rat × Rat)) : Rat × Rat :=
  if lat = 0 ∧ lon = 0 then
    match geo with
    | some l => l
    | none => (lat, lon)
  else (lat, lon)

/-! ## Specification-side pattern matching (for the refinement claim
about `checkTimeEvents`)

These definitions follow the specification's words — "for each
matching pattern, if a handler artifact exists at that position the
scheduler emits an event" — and are compared against the scheduler
code above. -/

/-- The sun times that `checkTimeEvents` uses this tick: recomputed on
a day change, otherwise the stored ones. -/
def effectiveSun (alg : SunCalc) (st : SchedState) (now : DateTime) :
    Option SunTime × Option SunTime :=
  if (now.day : Int) ≠ st.lastDay then
    updateSunTimes alg st.latitude st.longitude now.date
  else (st.sunriseTime, st.sunsetTime)

/-- The clock HH:MM equals the (non-zero) sun time's HH:MM. -/
def SunMatch (o : Option SunTime) (now : DateTime) : Prop :=
  ∃ t, o = some t ∧ t.hour = now.hour ∧ t.minute = now.minute

/-- An offset directory entry named `name` matches: the entry exists
as a subdirectory, its name parses as a signed offset, and the sun
time shifted by that offset lands on the current hour and minute (the
code consults offset directories only when both sun times are set). -/
def OffsetMatch (entries : Option (List DirEntry)) (base other : Option SunTime)
    (now : DateTime) (name : String) : Prop :=
  ∃ es e b o2 off, entries = some es ∧ e ∈ es ∧ e.isDir = true ∧
    e.name = name ∧ base = some b ∧ other = some o2 ∧
    parseOffset name = some off ∧
    (b.shift off).hour = now.hour ∧ (b.shift off).minute = now.minute

/-- The claim's pattern positions: the four minute patterns, sunrise,
sunset, and the offset subdirectories of sunrise/sunset. -/
def InSevenPattern (fs : EventsFS) (now : DateTime) (p : String) : Prop :=
  p = "*_*" ∨ p = anyHourPattern now.minute ∨ p = anyMinutePattern now.hour ∨
  p = fmtHM now.hour now.minute ∨ p = "sunrise" ∨ p = "sunset" ∨
  (∃ es e, fs.sunriseEntries = some es ∧ e ∈ es ∧ e.isDir = true ∧
    p = "sunrise/" ++ e.name) ∨
  (∃ es e, fs.sunsetEntries = some es ∧ e ∈ es ∧ e.isDir = true ∧
    p = "sunset/" ++ e.name)

/-- The claim's matching condition for a pattern position `p`, given
the effective sun times `sun` of the tick. -/
def ClaimMatches (fs : EventsFS) (sun : Option SunTime × Option SunTime)
    (now : DateTime) (p : String) : Prop :=
  p = "*_*" ∨ p = anyHourPattern now.minute ∨ p = anyMinutePattern now.hour ∨
  p = fmtHM now.hour now.minute ∨
  (p = "sunrise" ∧ SunMatch sun.1 now) ∨ (p = "sunset" ∧ SunMatch sun.2 now) ∨
  (∃ name, p = "sunrise/" ++ name ∧
    OffsetMatch fs.sunriseEntries sun.1 sun.2 now name) ∨
  (∃ name, p = "sunset/" ++ name ∧
    OffsetMatch fs.sunsetEntries sun.2 sun.1 now name)

/-- `checkSunOffsetEvents` as a function of the two sun-time fields
(used to state tick-level facts without carrying the whole state). -/
def sunOffsetPair (fs : EventsFS) (osr oss : Option SunTime) (now : DateTime) :
    List Event :=
  match osr, oss with
  | some sr, some ss =>
      offsetDirEvents fs sr now "sunrise/" fs.sunriseEntries ++
      offsetDirEvents fs ss now "sunset/" fs.sunsetEntries
  | _, _ => []

/-! ## Concrete fixtures for witnesses and counterexamples -/

def fixFS : EventsFS := ⟨fun p => p == "*_*", none, none⟩

def fixAlg : SunCalc := fun _ _ _ => (⟨455⟩, ⟨1200⟩)

def fixState : SchedState :=
  ⟨0, 0, -1, -1, 5, none, none, [⟨"t1", 90, true, false, 0⟩]⟩

def fixNow : DateTime := ⟨2025, 6, 5, 12, 30, 0, 4, 100⟩

/-! # Theorems -/

/-! ## Shared helper lemmas -/

theorem managerSet_fst (m : ManagerState) (id : String)
    (attrs : List (String × Value)) : (managerSet m id attrs).1 = m := by
  rcases hl : lookupDevice id m.devices with _ | dev
  · simp [managerSet, hl]
  · simp only [managerSet, hl]
    split
    · rfl
    · split <;> rfl

theorem doSiblingsLoop_eq (r : String → Bool) (cur : String) (ev : Event) :
    ∀ entries, doSiblingsLoop r cur ev entries =
      (((entries.filter (isSibling cur)).map fun e => (e.name, ev)),
       (entries.filter (isSibling cur)).countP fun e => r e.name)
  | [] => rfl
  | e :: rest => by
    have ih := doSiblingsLoop_eq r cur ev rest
    by_cases hd : e.isDir <;>
      by_cases hl : e.name.endsWith ".lua" <;>
      by_cases hc : e.name = cur <;>
      by_cases hr : r e.name <;>
      simp [doSiblingsLoop, ih, isSibling, hd, hl, hc, hr, List.countP_cons]

theorem createTimer_iterate (k : Nat) (t : Tracker) :
    createTimer^[k] (.tracked t) =
      .tracked ⟨t.refCount, t.activeTimers + k, t.timersCreated || decide (0 < k)⟩ := by
  induction k with
  | zero => cases t; simp
  | succ k ih =>
      rw [Function.iterate_succ_apply', ih]
      simp [createTimer]
      omega

theorem timerRemoved_iterate (j d : Nat) :
    timerRemoved^[j] (.tracked ⟨1, j + d + 1, true⟩) = .tracked ⟨1, d + 1, true⟩ := by
  induction j with
  | zero => simp
  | succ j ih =>
      rw [Function.iterate_succ_apply]
      have h1 : timerRemoved (.tracked ⟨1, j + 1 + d + 1, true⟩) =
          .tracked ⟨1, j + d + 1, true⟩ := by
        have h2 : j + 1 + d + 1 - 1 = j + d + 1 := by omega
        simp only [timerRemoved, h2]
        rw [if_neg (by omega)]
      rw [h1, ih]

theorem lookupKey_eq_some_of_mem {l : List (String × Value)} {k : String}
    {v : Value} (hnd : (l.map Prod.fst).Nodup) (hm : (k, v) ∈ l) :
    lookupKey k l = some v := by
  induction l with
  | nil => cases hm
  | cons kv rest ih =>
      obtain ⟨k0, v0⟩ := kv
      simp only [List.map_cons, List.nodup_cons] at hnd
      rcases List.mem_cons.1 hm with h | h
      · obtain ⟨hk, hv⟩ := Prod.mk.injEq .. ▸ h
        simp [lookupKey, hk.symm, hv]
      · by_cases hk : k0 = k
        · subst hk
          exact absurd (List.mem_map.2 ⟨(k0, v), h, rfl⟩) hnd.1
        · simp [lookupKey, hk, ih hnd.2 h]

theorem lookupKey_filter_ne {l : List (String × Value)} {k attr : String}
    (hk : k ≠ attr) :
    lookupKey k (l.filter fun kv => ¬(kv.1 = attr)) = lookupKey k l := by
  induction l with
  | nil => rfl
  | cons kv rest ih =>
      obtain ⟨k0, v0⟩ := kv
      simp only [decide_not] at ih
      by_cases h0 : k0 = attr
      · by_cases hkk : k0 = k
        · exact absurd (hkk ▸ h0) hk
        · simp [List.filter_cons, h0, lookupKey, hkk, Ne.symm hk, ih]
      · by_cases hkk : k0 = k
        · simp [List.filter_cons, h0, lookupKey, hkk, hk, ih]
        · simp [List.filter_cons, h0, lookupKey, hkk, ih]

theorem countP_key_once {l : List (String × Value)} {k : String} {v : Value}
    (hnd : (l.map Prod.fst).Nodup) (hm : (k, v) ∈ l) :
    l.countP (fun kv => kv.1 == k) = 1 := by
  induction l with
  | nil => cases hm
  | cons kv rest ih =>
      obtain ⟨k0, v0⟩ := kv
      simp only [List.map_cons, List.nodup_cons] at hnd
      rw [List.countP_cons]
      rcases List.mem_cons.1 hm with h | h
      · obtain ⟨hk, _⟩ := Prod.mk.injEq .. ▸ h
        have hz : rest.countP (fun kv => kv.1 == k) = 0 := by
          rw [List.countP_eq_zero]
          intro a ha hc
          have : a.1 = k := by simpa using hc
          exact hnd.1 (hk ▸ this ▸ List.mem_map.2 ⟨a, ha, rfl⟩)
        simp [hz, hk.symm]
      · have hk : ¬ (k0 = k) := by
          intro hc
          subst hc
          exact hnd.1 (List.mem_map.2 ⟨(k0, v), h, rfl⟩)
        simp [hk, ih hnd.2 h]

theorem deviceStateEvents_eq (d topic : String) (s : List (String × Value)) :
    ∀ l, deviceStateEvents d topic s l =
      (l.filter fun kv => !housekeeping kv.1).map
        (fun kv => stateChangeEvent d topic s kv.1 kv.2)
  | [] => rfl
  | (attr, v) :: rest => by
      have ih := deviceStateEvents_eq d topic s rest
      by_cases h : housekeeping attr <;>
        simp [deviceStateEvents, ih, List.filter_cons, h]

theorem truncQ_intCast (n : Int) : truncQ (n : Rat) = n := by
  simp [truncQ, Rat.num_intCast, Rat.den_intCast]

theorem maxN_mapEntries (kvs : List (String × Value)) :
    ∀ acc, maxNLoop acc (toLuaMapEntries kvs) = acc := by
  induction kvs with
  | nil => intro acc; rfl
  | cons kv rest ih =>
      intro acc
      obtain ⟨k, v⟩ := kv
      simp [toLuaMapEntries, maxNLoop, ih]

theorem maxN_listEntries :
    ∀ (xs : List Value) (i acc : Int), acc ≤ i →
      maxNLoop acc (toLuaListEntries (i + 1) xs) =
        if xs.isEmpty then acc else i + xs.length
  | [], _, _, _ => by simp [toLuaListEntries, maxNLoop]
  | x :: rest, i, acc, hle => by
      have hkey : truncQ ((i + 1 : Int) : Rat) = i + 1 := truncQ_intCast (i + 1)
      have ih := maxN_listEntries rest (i + 1) (i + 1) (le_refl _)
      simp only [toLuaListEntries, maxNLoop, hkey]
      rw [if_pos (by omega), ih]
      cases rest with
      | nil => simp
      | cons a l =>
          rw [if_neg (by simp), if_neg (by simp)]
          simp only [List.length_cons]
          push_cast
          omega

theorem list_set_append (pre : List Value) (v0 v : Value) (post : List Value) :
    (pre ++ v0 :: post).set pre.length v = pre ++ v :: post := by
  induction pre with
  | nil => rfl
  | cons a pre ih => simp [List.set, ih]

theorem setAt_append (pre : List Value) (v0 v : Value) (post : List Value) :
    setAt (pre ++ v0 :: post) (pre.length : Int) v = pre ++ v :: post := by
  have hguard : (0 : Int) ≤ (pre.length : Int) ∧
      (pre.length : Int) < ((pre ++ v0 :: post).length : Int) := by
    constructor
    · positivity
    · simp
  rw [setAt, if_pos hguard, Int.toNat_natCast, list_set_append]

theorem arr_fill :
    ∀ (xs pre post : List Value), post.length = xs.length →
      (∀ x ∈ xs, fromLuaValue (toLuaValue x) = x) →
      arrLoop (toLuaListEntries ((pre.length : Int) + 1) xs) (pre ++ post) =
        pre ++ xs
  | [], pre, post, hlen, _ => by
      have : post = [] := List.length_eq_zero.1 hlen
      subst this
      rfl
  | x :: rest, pre, post, hlen, hg => by
      match post, hlen with
      | p0 :: post', hlen =>
        have hx : fromLuaValue (toLuaValue x) = x := hg x (List.mem_cons_self ..)
        have hkey : truncQ (((pre.length : Int) + 1 : Int) : Rat) - 1 =
            (pre.length : Int) := by
          rw [truncQ_intCast]
          omega
        have hset : setAt (pre ++ p0 :: post') ((pre.length : Int)) x =
            pre ++ x :: post' := setAt_append pre p0 x post'
        have harg : (pre.length : Int) + 1 + 1 = (((pre ++ [x]).length : Int) + 1) := by
          simp
        have hlen' : post'.length = rest.length := by
          simpa using hlen
        have ih := arr_fill rest (pre ++ [x]) post' hlen'
          (fun y hy => hg y (List.mem_cons_of_mem _ hy))
        calc arrLoop (toLuaListEntries ((pre.length : Int) + 1) (x :: rest))
              (pre ++ p0 :: post')
            = arrLoop (toLuaListEntries ((pre.length : Int) + 1 + 1) rest)
                (pre ++ x :: post') := by
              simp only [toLuaListEntries, arrLoop, hkey, hx, hset]
          _ = pre ++ x :: rest := by
              rw [harg]
              have hmerge : pre ++ x :: post' = (pre ++ [x]) ++ post' := by simp
              rw [hmerge, ih]
              simp

mutual

theorem roundtrip_val : ∀ (v : Value), goodValue v = true →
    fromLuaValue (toLuaValue v) = v
  | .bool _, _ => rfl
  | .float _, _ => rfl
  | .str _, _ => rfl
  | .null, hg => by simp [goodValue] at hg
  | .int _, hg => by simp [goodValue] at hg
  | .bytes _, hg => by simp [goodValue] at hg
  | .map kvs, hg => by
      have hobj := roundtrip_map kvs (by simpa [goodValue] using hg)
      show fromLuaValue (.ltable (toLuaMapEntries kvs)) = .map kvs
      simp only [fromLuaValue, maxN_mapEntries]
      rw [if_neg (by omega)]
      rw [hobj]
  | .list xs, hg => by
      have hg' : ¬ xs.isEmpty ∧ goodList xs = true := by
        simpa [goodValue, Bool.and_eq_true] using hg
      have hne : xs ≠ [] := by
        cases xs
        · simp at hg'
        · simp
      have hmem := roundtrip_listMem xs hg'.2
      show fromLuaValue (.ltable (toLuaListEntries 1 xs)) = .list xs
      have hone : (1 : Int) = (0 : Int) + 1 := by norm_num
      have hmax : maxNLoop 0 (toLuaListEntries 1 xs) = (xs.length : Int) := by
        rw [hone, maxN_listEntries xs 0 0 (le_refl _)]
        simp [hne]
      have hpos : 0 < (xs.length : Int) := by
        cases xs
        · exact absurd rfl hne
        · simp
      simp only [fromLuaValue, hmax, if_pos hpos]
      have hrep : (List.replicate ((xs.length : Int)).toNat Value.null).length =
          xs.length := by simp
      have := arr_fill xs [] (List.replicate ((xs.length : Int)).toNat Value.null)
          hrep hmem
      simp only [List.length_nil, Nat.cast_zero, zero_add, List.nil_append] at this
      rw [this]

theorem roundtrip_listMem : ∀ (xs : List Value), goodList xs = true →
    ∀ x ∈ xs, fromLuaValue (toLuaValue x) = x
  | [], _ => by intro x hx; cases hx
  | y :: rest, hg => by
      have h1 : goodValue y = true ∧ goodList rest = true := by
        simpa [goodList, Bool.and_eq_true] using hg
      intro x hx
      rcases List.mem_cons.1 hx with rfl | hx'
      · exact roundtrip_val x h1.1
      · exact roundtrip_listMem rest h1.2 x hx'

theorem roundtrip_map : ∀ (kvs : List (String × Value)), goodMap kvs = true →
    objLoop (toLuaMapEntries kvs) = kvs
  | [], _ => rfl
  | (k, v) :: rest, hg => by
      have h1 : goodValue v = true ∧ goodMap rest = true := by
        have := hg
        simp only [goodMap, Bool.and_eq_true] at this
        exact ⟨this.1.2, this.2⟩
      show (k, fromLuaValue (toLuaValue v)) :: objLoop (toLuaMapEntries rest) =
        (k, v) :: rest
      rw [roundtrip_val v h1.1, roundtrip_map rest h1.2]

end

/-! ## C4 — value conversions across the script boundary -/

/-- C4 counterexample: the conversions are not mutually inverse on the
claimed domain.  An int comes back as a float, null comes back as the
string "nil", bytes come back as a string, and the empty list comes
back as an empty map. -/
theorem c4_counterexample :
    (fromLuaValue (toLuaValue (.int 5)) = .float 5 ∧ Value.float 5 ≠ .int 5) ∧
    (fromLuaValue (toLuaValue .null) = .str "nil" ∧ Value.str "nil" ≠ .null) ∧
    (fromLuaValue (toLuaValue (.bytes [7, 255])) = .str (bytesToString [7, 255]) ∧
      Value.str (bytesToString [7, 255]) ≠ .bytes [7, 255]) ∧
    (fromLuaValue (toLuaValue (.list [])) = .map [] ∧ Value.map [] ≠ .list []) := by
  refine ⟨⟨?_, by simp⟩, ⟨rfl, by simp⟩, ⟨rfl, by simp⟩, ⟨rfl, by simp⟩⟩
  show Value.float ((5 : Int) : Rat) = .float 5
  norm_num

/-- C4 (amended): the conversions are mutually inverse on the
sub-domain without null, ints, bytes and empty lists (and with unique
map keys): bools, floats, strings, non-empty lists and maps of such
values round-trip identically.  Moreover a table converts back to a
list exactly when the maximum of `int(num)` over its numeric keys is
positive — not only when its keys are all-numeric starting at 1 — and
byte sequences survive with their content intact but come back as a
string, not bytes. -/
theorem c4_roundtrip :
    (∀ v, goodValue v = true → fromLuaValue (toLuaValue v) = v) ∧
    (∀ entries, (∃ xs, fromLuaValue (.ltable entries) = .list xs) ↔
      0 < maxNLoop 0 entries) ∧
    (∀ bs, fromLuaValue (toLuaValue (.bytes bs)) = .str (bytesToString bs)) := by
  refine ⟨roundtrip_val, ?_, fun bs => rfl⟩
  intro entries
  constructor
  · rintro ⟨xs, hxs⟩
    by_cases h : 0 < maxNLoop 0 entries
    · exact h
    · simp only [fromLuaValue, if_neg h] at hxs
      cases hxs
  · intro h
    exact ⟨arrLoop entries (List.replicate (maxNLoop 0 entries).toNat .null),
      by simp only [fromLuaValue, if_pos h]⟩

/-- Witness for C4's amended theorem at a compound good value. -/
theorem c4_roundtrip_witness :
    (goodValue (.map [("a", .bool true), ("b", .list [.float 5, .str "x"])]) = true ∧
      fromLuaValue (toLuaValue
        (.map [("a", .bool true), ("b", .list [.float 5, .str "x"])])) =
        (.map [("a", .bool true), ("b", .list [.float 5, .str "x"])])) :=
  ⟨rfl, c4_roundtrip.1 (.map [("a", .bool true), ("b", .list [.float 5, .str "x"])]) rfl⟩

/-! ## C5 — one state-change event per payload key -/

/-- C5: for a decoded payload with (Go-map-unique) keys, the adapter
produces exactly one event per non-housekeeping key; every event has
source `device`, type `state_change`, the device's id, the topic, a
non-housekeeping attribute, and a data map in which every payload key
(housekeeping ones included) is present with its payload value. -/
theorem c5_device_state_events (d topic : String)
    (state : List (String × Value)) (h : (state.map Prod.fst).Nodup) :
    ((handleDecodedState d topic state).length =
      state.countP fun kv => !housekeeping kv.1) ∧
    (∀ e ∈ handleDecodedState d topic state,
      e.source = "device" ∧ e.type = "state_change" ∧ e.device = d ∧
      e.topic = topic ∧ housekeeping e.attr = false ∧
      ∀ kv ∈ state, lookupKey kv.1 e.data = some kv.2) ∧
    (∀ kv ∈ state, housekeeping kv.1 = false →
      (handleDecodedState d topic state).countP (fun e => e.attr == kv.1) = 1) := by
  have hst : handleDecodedState d topic state =
      (state.filter fun kv => !housekeeping kv.1).map
        (fun kv => stateChangeEvent d topic state kv.1 kv.2) :=
    deviceStateEvents_eq d topic state state
  refine ⟨?_, ?_, ?_⟩
  · rw [hst, List.length_map, ← List.countP_eq_length_filter]
  · intro e he
    rw [hst] at he
    obtain ⟨⟨attr, v⟩, hmem, rfl⟩ := List.mem_map.1 he
    have hfil := List.of_mem_filter hmem
    have hmem' : (attr, v) ∈ state := List.mem_of_mem_filter hmem
    refine ⟨rfl, rfl, rfl, rfl, by simpa using hfil, ?_⟩
    rintro ⟨k1, v1⟩ hkv
    by_cases hk : k1 = attr
    · subst hk
      have h1 := lookupKey_eq_some_of_mem h hmem'
      have h2 := lookupKey_eq_some_of_mem h hkv
      rw [h1] at h2
      have hv : v = v1 := by simpa using h2
      simp [stateChangeEvent, lookupKey, hv]
    · have heq : lookupKey k1 ((attr, v) :: state.filter fun kv' => ¬(kv'.1 = attr)) =
          lookupKey k1 state := by
        have hne : ¬ (attr = k1) := fun hc => hk hc.symm
        rw [lookupKey, if_neg hne, lookupKey_filter_ne hk]
      simp only [stateChangeEvent]
      rw [heq]
      exact lookupKey_eq_some_of_mem h hkv
  · rintro ⟨k1, v1⟩ hkv hhk
    rw [hst, List.countP_map]
    have h1 : (state.filter fun kv' => !housekeeping kv'.1).countP
        (fun kv' => kv'.1 == k1) = 1 := by
      rw [List.countP_filter]
      have h2 : state.countP (fun a => a.1 == k1 && !housekeeping a.1) =
          state.countP (fun a => a.1 == k1) := by
        apply List.countP_congr
        intro a _
        constructor
        · intro hh
          exact (Bool.and_eq_true .. ▸ hh).1
        · intro hh
          have ha : a.1 = k1 := by simpa using hh
          simp only [ha] at hhk ⊢
          simp [hh, hhk]
      rw [h2]
      exact countP_key_once h hkv
    calc ((state.filter fun kv' => !housekeeping kv'.1).countP
            ((fun e => e.attr == k1) ∘ fun kv' => stateChangeEvent d topic state kv'.1 kv'.2))
        = (state.filter fun kv' => !housekeeping kv'.1).countP
            (fun kv' => kv'.1 == k1) := by
          apply List.countP_congr
          intro a _
          simp [stateChangeEvent]
      _ = 1 := h1

/-- Witness for C5 at a two-key payload with a housekeeping key. -/
theorem c5_device_state_events_witness :
    ((([("state", Value.str "ON"), ("linkquality", Value.int 42)].map
        Prod.fst).Nodup) ∧
      (handleDecodedState "porch" "zigbee2mqtt/Porch"
        [("state", .str "ON"), ("linkquality", .int 42)]).length =
        [("state", Value.str "ON"), ("linkquality", Value.int 42)].countP
          (fun kv => !housekeeping kv.1)) := by
  refine ⟨by decide, ?_⟩
  exact (c5_device_state_events "porch" "zigbee2mqtt/Porch"
    [("state", .str "ON"), ("linkquality", .int 42)] (by decide)).1

/-! ## C7 — worker-pool submit -/

/-- C7 counterexample: `Submit` is a Go `select`; when the pool is
stopping but the queue has room, the send case is also ready, and Go
may choose it — the task is then enqueued, not dropped, contradicting
the claim that a stopping pool always drops the task with the queue
unchanged. -/
theorem c7_counterexample :
    SubmitStep { queue := [], capacity := 2, stopping := true }
      { scriptPath := "a.lua", eventId := 0 }
      ({ queue := [{ scriptPath := "a.lua", eventId := 0 }], capacity := 2,
         stopping := true }, .enqueued) ∧
    ({ queue := [], capacity := 2, stopping := true } : PoolState).stopping = true ∧
    ({ queue := [{ scriptPath := "a.lua", eventId := 0 }], capacity := 2,
       stopping := true } : PoolState).queue ≠
      ({ queue := [], capacity := 2, stopping := true } : PoolState).queue := by
  refine ⟨?_, rfl, by simp⟩
  exact SubmitStep.send _ _ (by simp)

/-- C7 (amended): submit never blocks (some outcome always exists) and
never touches previously queued tasks; with the queue at capacity and
the pool not stopping the newest task is dropped and the queue is
unchanged; with room and the pool not stopping the task is appended;
when the pool is stopping the task may be rejected with the queue
unchanged, but may also still be enqueued if there is room. -/
theorem c7_submit_nonblocking :
    (∀ p t, ∃ o, SubmitStep p t o) ∧
    (∀ p t q r, SubmitStep p t (q, r) →
      (q.queue = p.queue ∨ q.queue = p.queue ++ [t]) ∧
      q.capacity = p.capacity ∧ q.stopping = p.stopping) ∧
    (∀ p t q r, SubmitStep p t (q, r) → p.capacity ≤ p.queue.length →
      p.stopping = false → r = .droppedFull ∧ q = p) ∧
    (∀ p t q r, SubmitStep p t (q, r) → p.queue.length < p.capacity →
      p.stopping = false → r = .enqueued ∧ q.queue = p.queue ++ [t]) := by
  refine ⟨?_, ?_, ?_, ?_⟩
  · intro p t
    by_cases hs : p.stopping = true
    · exact ⟨(p, .rejectedStopping), .stop p t hs⟩
    · by_cases hq : p.queue.length < p.capacity
      · exact ⟨_, .send p t hq⟩
      · exact ⟨(p, .droppedFull), .dflt p t hq (by simpa using hs)⟩
  · intro p t q r h
    cases h with
    | send h => exact ⟨Or.inr rfl, rfl, rfl⟩
    | stop h => exact ⟨Or.inl rfl, rfl, rfl⟩
    | dflt h h' => exact ⟨Or.inl rfl, rfl, rfl⟩
  · intro p t q r h hfull hstop
    cases h with
    | send h => omega
    | stop h => simp [hstop] at h
    | dflt h h' => exact ⟨rfl, rfl⟩
  · intro p t q r h hroom hstop
    cases h with
    | send h => exact ⟨rfl, rfl⟩
    | stop h => simp [hstop] at h
    | dflt h h' => omega

/-- Witness for C7's amended theorem at a full, non-stopping pool. -/
theorem c7_submit_nonblocking_witness :
    (SubmitOutcome.droppedFull = SubmitOutcome.droppedFull ∧
      ({ queue := [{ scriptPath := "b.lua", eventId := 1 }], capacity := 1,
         stopping := false } : PoolState) =
      { queue := [{ scriptPath := "b.lua", eventId := 1 }], capacity := 1,
        stopping := false }) :=
  c7_submit_nonblocking.2.2.1
    { queue := [{ scriptPath := "b.lua", eventId := 1 }], capacity := 1,
      stopping := false }
    { scriptPath := "c.lua", eventId := 2 } _ _
    (SubmitStep.dflt _ _ (by simp) rfl) (by simp) rfl

/-! ## C8 — device-registry set leaves snapshots unchanged -/

/-- C8: `Set` publishes a command (for a known, connected, non-Frigate
device: exactly one JSON publish to the command topic) but returns the
manager with every snapshot untouched; across the exported surface,
only `UpdateState` — the path invoked for inbound bus messages — can
change `states`. -/
theorem c8_set_frame :
    (∀ m id attrs, ((managerSet m id attrs).1).states = m.states) ∧
    (∀ (m : ManagerState) (op : ManagerOp), op.isUpdateState = false →
      (applyManagerOp m op).states = m.states) ∧
    (∀ m id attrs d, lookupDevice id m.devices = some d → m.connected = true →
      ¬(d.dtype = "camera" ∧ d.vendor = "Frigate NVR") →
      (managerSet m id attrs).2.1 =
        [{ topic := d.mqtt.commandTopic, payload := jsonBody attrs }]) := by
  refine ⟨?_, ?_, ?_⟩
  · intro m id attrs
    rw [managerSet_fst]
  · intro m op hop
    cases op <;> simp_all [applyManagerOp, ManagerOp.isUpdateState, managerSet_fst]
  · intro m id attrs d hdev hconn hfrig
    simp [managerSet, hdev, hconn, hfrig]

/-- Witness for C8 at a concrete manager and a non-mutating op. -/
theorem c8_set_frame_witness :
    (ManagerOp.isUpdateState (.get "porch") = false ∧
      (applyManagerOp
        { devices := [], states := [("porch", [("state", .str "ON")])],
          connected := true } (.get "porch")).states =
      ({ devices := [], states := [("porch", [("state", .str "ON")])],
         connected := true } : ManagerState).states) :=
  ⟨rfl, c8_set_frame.2.1
    { devices := [], states := [("porch", [("state", .str "ON")])],
      connected := true } (.get "porch") rfl⟩

/-! ## C9 — DoSiblings -/

/-- C9: every `Execute` binds the `DoSiblings` global; when the
directory read fails it runs nothing and returns Lua `false`
(modelled `none`); otherwise it executes exactly the non-directory
`*.lua` entries other than the calling script, each with the calling
script's event, and returns the number of them whose execution
succeeded. -/
theorem c9_do_siblings :
    ("DoSiblings" ∈ executeGlobals) ∧
    (∀ r cur ev, doSiblings r cur ev none = ([], none)) ∧
    (∀ r cur ev entries, doSiblings r cur ev (some entries) =
      (((entries.filter (isSibling cur)).map fun e => (e.name, ev)),
       some ((entries.filter (isSibling cur)).countP fun e => r e.name))) := by
  refine ⟨by simp [executeGlobals], fun r cur ev => rfl, fun r cur ev entries => ?_⟩
  simp [doSiblings, doSiblingsLoop_eq]

/-! ## C10 — coordinates are unset only when both are exactly zero -/

/-- C10: `updateSunTimes` produces the zero (disabled) sun times
exactly when latitude and longitude are both `0`; with exactly one of
them zero the times are computed astronomically from those
coordinates, and `runServer` passes such coordinates to the scheduler
without consulting geolocation. -/
theorem c10_coords_unset :
    ∀ (alg : SunCalc) (lat lon : Rat) (d : SDate),
      (((updateSunTimes alg lat lon d).1 = none) ↔ (lat = 0 ∧ lon = 0)) ∧
      (((updateSunTimes alg lat lon d).2 = none) ↔ (lat = 0 ∧ lon = 0)) ∧
      ((lat = 0 ∧ lon ≠ 0) ∨ (lat ≠ 0 ∧ lon = 0) →
        updateSunTimes alg lat lon d =
          (some (alg lat lon d).1, some (alg lat lon d).2)) ∧
      (∀ geo, ¬(lat = 0 ∧ lon = 0) → resolveCoords lat lon geo = (lat, lon)) := by
  intro alg lat lon d
  by_cases h : lat = 0 ∧ lon = 0
  · refine ⟨by simp [updateSunTimes, h], by simp [updateSunTimes, h], ?_, ?_⟩
    · rintro (⟨_, hlon⟩ | ⟨hlat, _⟩)
      · exact absurd h.2 hlon
      · exact absurd h.1 hlat
    · intro geo hne
      exact absurd h hne
  · exact ⟨by simp [updateSunTimes, h], by simp [updateSunTimes, h],
      fun _ => by simp [updateSunTimes, h], fun geo _ => by simp [resolveCoords, h]⟩

/-- Witness for C10 on the equator (latitude 0, longitude 37). -/
theorem c10_coords_unset_witness :
    updateSunTimes (fun _ _ _ => (⟨455⟩, ⟨1200⟩)) 0 37 ⟨2025, 6, 21⟩ =
      (some ⟨455⟩, some ⟨1200⟩) :=
  (c10_coords_unset (fun _ _ _ => (⟨455⟩, ⟨1200⟩)) 0 37 ⟨2025, 6, 21⟩).2.2.1
    (Or.inl ⟨rfl, by norm_num⟩)

/-! ## C1 — interpreter lifetime -/

/-- C1: an interpreter created by `Execute` starts with one reference
and no timers; releasing the last reference while timers are
outstanding keeps it alive; release closes it exactly when the
decremented reference count and the active-timer count are both zero;
a script that created `k+1` timers leaves the tracker at
`refCount = 1` (retained for the timer set) with `k+1` active timers,
each timer removal (one-shot fire or cancel) decrements the
active-timer count, and the interpreter is closed exactly at the last
removal, when both counters reach zero. -/
theorem c1_interpreter_lifetime :
    (addStateReference .closedAndRemoved = .tracked ⟨1, 0, false⟩) ∧
    (∀ t : Tracker, 0 < t.activeTimers →
      releaseStateReference (.tracked t) ≠ .closedAndRemoved) ∧
    (∀ t : Tracker, t.refCount = 1 →
      (releaseStateReference (.tracked t) = .closedAndRemoved ↔
        t.activeTimers = 0)) ∧
    (executeScript 0 = .closedAndRemoved) ∧
    (∀ k, executeScript (k + 1) = .tracked ⟨1, k + 1, true⟩) ∧
    (∀ j d, timerRemoved^[j] (.tracked ⟨1, j + d + 1, true⟩) =
      .tracked ⟨1, d + 1, true⟩) ∧
    (∀ k, timerRemoved^[k + 1] (.tracked ⟨1, k + 1, true⟩) = .closedAndRemoved) := by
  refine ⟨rfl, ?_, ?_, rfl, ?_, timerRemoved_iterate, ?_⟩
  · intro t ht
    simp only [releaseStateReference, gt_iff_lt, ht, if_true]
    split <;> simp
  · intro t hr
    simp [releaseStateReference, hr]
  · intro k
    simp only [executeScript, Function.iterate_succ_apply]
    have h0 : createTimer (addStateReference .closedAndRemoved) =
        .tracked ⟨1, 1, true⟩ := rfl
    rw [h0, createTimer_iterate]
    simp [executeFinish]
    omega
  · intro k
    rw [Function.iterate_succ_apply']
    have h := timerRemoved_iterate k 0
    simp only [Nat.add_zero] at h
    rw [h]
    simp [timerRemoved, releaseStateReference]

theorem checkTimers_fires (n : Int) :
    ∀ ts, (checkTimers n ts).1 =
      (ts.filter fun t => t.triggerTime ≤ n && t.hasCallback).map (fun t => t.id)
  | [] => rfl
  | t :: rest => by
      have ih := checkTimers_fires n rest
      by_cases hdue : t.triggerTime ≤ n <;> by_cases hcb : t.hasCallback = true <;>
        simp [checkTimers, List.filter_cons, hdue, hcb, ih]

theorem fire_index_lt {fsl : List String} {esl : List Event} {j : Nat} {b : String}
    (h : (fsl.map SchedAction.fire ++ esl.map SchedAction.emit)[j]? =
      some (.fire b)) : j < fsl.length := by
  by_contra hj
  push_neg at hj
  rw [List.getElem?_append_right (by simpa using hj), List.getElem?_map] at h
  rcases hx : esl[j - (fsl.map SchedAction.fire).length]? with _ | e <;> rw [hx] at h
  · cases h
  · simp at h

theorem emit_index_ge {fsl : List String} {esl : List Event} {i : Nat} {a : Event}
    (h : (fsl.map SchedAction.fire ++ esl.map SchedAction.emit)[i]? =
      some (.emit a)) : fsl.length ≤ i := by
  by_contra hi
  push_neg at hi
  rw [List.getElem?_append, if_pos (by simpa using hi), List.getElem?_map] at h
  rcases hx : fsl[i]? with _ | s <;> rw [hx] at h
  · cases h
  · simp at h

theorem digitChar_isDigit (d : Nat) (h : d < 10) : (digitChar d).isDigit = true := by
  interval_cases d <;> decide

theorem natToStrAux_data :
    ∀ (fuel n : Nat), n < fuel →
      ∃ c cs, (natToStrAux fuel n).data = c :: cs ∧ c.isDigit = true
  | fuel + 1, n, h => by
      rw [natToStrAux]
      split
      · next hn =>
          exact ⟨digitChar n, [], rfl, digitChar_isDigit n hn⟩
      · next hn =>
          have hdiv : n / 10 < fuel := by
            have h1 : n / 10 < n := Nat.div_lt_self (by omega) (by omega)
            omega
          obtain ⟨c, cs, hd, hdig⟩ := natToStrAux_data fuel (n / 10) hdiv
          refine ⟨c, cs ++ [digitChar (n % 10)], ?_, hdig⟩
          rw [String.data_append, hd]
          rfl

theorem pad2_data (n : Nat) :
    ∃ c cs, (pad2 n).data = c :: cs ∧ c.isDigit = true := by
  rw [pad2]
  split
  · exact ⟨'0', (natToStr n).data, by rw [String.data_append]; rfl, by decide⟩
  · exact natToStrAux_data (n + 1) n (by omega)

theorem string_ne_of_head {s t : String} {c d : Char} {cs ds : List Char}
    (hs : s.data = c :: cs) (ht : t.data = d :: ds) (hne : c ≠ d) : s ≠ t := by
  intro h
  subst h
  rw [hs] at ht
  exact hne (List.cons.injEq .. ▸ ht).1

theorem data_head_append {s : String} {c : Char} {cs : List Char} (t : String)
    (hs : s.data = c :: cs) : (s ++ t).data = c :: (cs ++ t.data) := by
  rw [String.data_append, hs]
  rfl

/-- A string with a non-'s' head is none of the sun event types. -/
theorem sunfree_of_head {p : String} {c : Char} {cs : List Char}
    (hp : p.data = c :: cs) (hc : c ≠ 's') :
    p ≠ "sunrise" ∧ p ≠ "sunset" ∧
    (∀ n, p ≠ "sunrise/" ++ n) ∧ (∀ n, p ≠ "sunset/" ++ n) := by
  refine ⟨string_ne_of_head hp rfl hc, string_ne_of_head hp rfl hc, ?_, ?_⟩
  · intro n
    exact string_ne_of_head hp (data_head_append n (rfl : "sunrise/".data = _)) hc
  · intro n
    exact string_ne_of_head hp (data_head_append n (rfl : "sunset/".data = _)) hc

theorem isDigit_ne_s {c : Char} (h : c.isDigit = true) : c ≠ 's' := by
  intro hc
  subst hc
  exact absurd h (by decide)

theorem isDigit_ne_e {c : Char} (h : c.isDigit = true) : c ≠ 'e' := by
  intro hc
  subst hc
  exact absurd h (by decide)

/-- The four generic minute patterns and `every_hour` are not sun
event types. -/
theorem generic_patterns_sunfree (h m : Nat) (p : String)
    (hp : p = "*_*" ∨ p = anyHourPattern m ∨ p = anyMinutePattern h ∨
      p = fmtHM h m ∨ p = "every_hour") :
    p ≠ "sunrise" ∧ p ≠ "sunset" ∧
    (∀ n, p ≠ "sunrise/" ++ n) ∧ (∀ n, p ≠ "sunset/" ++ n) := by
  rcases hp with rfl | rfl | rfl | rfl | rfl
  · exact sunfree_of_head (rfl : ("*_*" : String).data = _) (by decide)
  · exact sunfree_of_head
      (data_head_append (pad2 m) (rfl : "*_".data = _)) (by decide)
  · obtain ⟨c, cs, hd, hdig⟩ := pad2_data h
    exact sunfree_of_head (data_head_append "_*" hd) (isDigit_ne_s hdig)
  · obtain ⟨c, cs, hd, hdig⟩ := pad2_data h
    have h1 : (pad2 h ++ "_").data = c :: (cs ++ "_".data) := data_head_append "_" hd
    exact sunfree_of_head (data_head_append (pad2 m) h1) (isDigit_ne_s hdig)
  · exact sunfree_of_head (rfl : ("every_hour" : String).data = _) (by decide)

/-- The fieldwise shape of one `checkTimeEvents` call: the coordinates
and timers are untouched, the sun times become the tick's effective
(possibly recomputed) sun times, and the routed events are the
minute-gate block followed by the hour-gate block. -/
theorem checkTimeEvents_spec (fs : EventsFS) (alg : SunCalc)
    (st : SchedState) (now : DateTime) :
    ((checkTimeEvents fs alg st now).1.latitude = st.latitude ∧
     (checkTimeEvents fs alg st now).1.longitude = st.longitude ∧
     (checkTimeEvents fs alg st now).1.timers = st.timers ∧
     (checkTimeEvents fs alg st now).1.sunriseTime = (effectiveSun alg st now).1 ∧
     (checkTimeEvents fs alg st now).1.sunsetTime = (effectiveSun alg st now).2) ∧
    (checkTimeEvents fs alg st now).2 =
      (if (now.minute : Int) ≠ st.lastMinute then
        checkAndTrigger fs "*_*" now
        ++ checkAndTrigger fs (anyHourPattern now.minute) now
        ++ checkAndTrigger fs (anyMinutePattern now.hour) now
        ++ checkAndTrigger fs (fmtHM now.hour now.minute) now
        ++ sunCheck fs (effectiveSun alg st now).1 "sunrise" now
        ++ sunCheck fs (effectiveSun alg st now).2 "sunset" now
        ++ sunOffsetPair fs (effectiveSun alg st now).1
            (effectiveSun alg st now).2 now
      else []) ++
      (if (now.hour : Int) ≠ st.lastHour ∧ now.minute = 0 then
        checkAndTrigger fs "every_hour" now
      else []) := by
  simp only [checkTimeEvents, effectiveSun]
  by_cases hday : (now.day : Int) ≠ st.lastDay
  · rw [if_pos hday, if_pos hday]
    by_cases hmin : (now.minute : Int) ≠ st.lastMinute
    · rw [if_pos hmin, if_pos hmin]
      by_cases hhr : (now.hour : Int) ≠ st.lastHour ∧ now.minute = 0
      · rw [if_pos hhr, if_pos hhr]
        exact ⟨⟨rfl, rfl, rfl, rfl, rfl⟩, by
          simp [checkSunOffsetEvents, sunOffsetPair]⟩
      · rw [if_neg hhr, if_neg hhr]
        exact ⟨⟨rfl, rfl, rfl, rfl, rfl⟩, by
          simp [checkSunOffsetEvents, sunOffsetPair]⟩
    · rw [if_neg hmin, if_neg hmin]
      by_cases hhr : (now.hour : Int) ≠ st.lastHour ∧ now.minute = 0
      · rw [if_pos hhr, if_pos hhr]
        exact ⟨⟨rfl, rfl, rfl, rfl, rfl⟩, by simp⟩
      · rw [if_neg hhr, if_neg hhr]
        exact ⟨⟨rfl, rfl, rfl, rfl, rfl⟩, by simp⟩
  · rw [if_neg hday, if_neg hday]
    by_cases hmin : (now.minute : Int) ≠ st.lastMinute
    · rw [if_pos hmin, if_pos hmin]
      by_cases hhr : (now.hour : Int) ≠ st.lastHour ∧ now.minute = 0
      · rw [if_pos hhr, if_pos hhr]
        exact ⟨⟨rfl, rfl, rfl, rfl, rfl⟩, by
          simp [checkSunOffsetEvents, sunOffsetPair]⟩
      · rw [if_neg hhr, if_neg hhr]
        exact ⟨⟨rfl, rfl, rfl, rfl, rfl⟩, by
          simp [checkSunOffsetEvents, sunOffsetPair]⟩
    · rw [if_neg hmin, if_neg hmin]
      by_cases hhr : (now.hour : Int) ≠ st.lastHour ∧ now.minute = 0
      · rw [if_pos hhr, if_pos hhr]
        exact ⟨⟨rfl, rfl, rfl, rfl, rfl⟩, by simp⟩
      · rw [if_neg hhr, if_neg hhr]
        exact ⟨⟨rfl, rfl, rfl, rfl, rfl⟩, by simp⟩

theorem effectiveSun_noCoords (alg : SunCalc) (st : SchedState)
    (now : DateTime) (hlat : st.latitude = 0) (hlon : st.longitude = 0)
    (hsr : st.sunriseTime = none) (hss : st.sunsetTime = none) :
    effectiveSun alg st now = (none, none) := by
  rw [effectiveSun]
  split
  · rw [hlat, hlon, updateSunTimes, if_pos ⟨rfl, rfl⟩]
  · rw [hsr, hss]

/-- With both coordinates zero, `checkTimeEvents` keeps the zero sun
times and routes only the four generic minute patterns and
`every_hour`. -/
theorem checkTimeEvents_noCoords (fs : EventsFS) (alg : SunCalc)
    (st : SchedState) (now : DateTime) (hlat : st.latitude = 0)
    (hlon : st.longitude = 0) (hsr : st.sunriseTime = none)
    (hss : st.sunsetTime = none) :
    ((checkTimeEvents fs alg st now).1.latitude = 0 ∧
     (checkTimeEvents fs alg st now).1.longitude = 0 ∧
     (checkTimeEvents fs alg st now).1.sunriseTime = none ∧
     (checkTimeEvents fs alg st now).1.sunsetTime = none) ∧
    (checkTimeEvents fs alg st now).2 =
      (if (now.minute : Int) ≠ st.lastMinute then
        checkAndTrigger fs "*_*" now
        ++ checkAndTrigger fs (anyHourPattern now.minute) now
        ++ checkAndTrigger fs (anyMinutePattern now.hour) now
        ++ checkAndTrigger fs (fmtHM now.hour now.minute) now
      else []) ++
      (if (now.hour : Int) ≠ st.lastHour ∧ now.minute = 0 then
        checkAndTrigger fs "every_hour" now
      else []) := by
  have hspec := checkTimeEvents_spec fs alg st now
  have heff := effectiveSun_noCoords alg st now hlat hlon hsr hss
  rw [heff] at hspec
  refine ⟨⟨hlat ▸ hspec.1.1, hlon ▸ hspec.1.2.1, hspec.1.2.2.2.1,
    hspec.1.2.2.2.2⟩, ?_⟩
  rw [hspec.2]
  simp only [sunCheck, sunOffsetPair, List.append_nil]

theorem type_of_mem_checkAndTrigger {fs : EventsFS} {p : String} {now : DateTime}
    {e : Event} (h : e ∈ checkAndTrigger fs p now) : e.type = p := by
  rw [checkAndTrigger] at h
  split at h
  · have he : e = timeEvent p now := by simpa using h
    subst he
    rfl
  · cases h

/-! ## C3 — no coordinates, no sun events -/

/-- C3: with latitude and longitude both unset (zero), the scheduler's
sun times are the zero time from construction on, every tick preserves
that, and no tick ever routes a `sunrise`, `sunset` or offset
(`sunrise/±HH_MM`, `sunset/±HH_MM`) event — no guessed or default sun
times are substituted. -/
theorem c3_no_coordinates :
    (∀ (alg : SunCalc) (now : DateTime),
      (schedNew alg 0 0 now).sunriseTime = none ∧
      (schedNew alg 0 0 now).sunsetTime = none ∧
      (schedNew alg 0 0 now).latitude = 0 ∧ (schedNew alg 0 0 now).longitude = 0) ∧
    (∀ fs alg st (now : DateTime), st.latitude = 0 → st.longitude = 0 →
      st.sunriseTime = none → st.sunsetTime = none →
      ((tick fs alg st now).1.latitude = 0 ∧ (tick fs alg st now).1.longitude = 0 ∧
       (tick fs alg st now).1.sunriseTime = none ∧
       (tick fs alg st now).1.sunsetTime = none) ∧
      (∀ e, SchedAction.emit e ∈ (tick fs alg st now).2 →
        e.type ≠ "sunrise" ∧ e.type ≠ "sunset" ∧
        (∀ n, e.type ≠ "sunrise/" ++ n) ∧ (∀ n, e.type ≠ "sunset/" ++ n))) := by
  constructor
  · intro alg now
    simp [schedNew, updateSunTimes]
  · intro fs alg st now hlat hlon hsr hss
    have hcte := checkTimeEvents_noCoords fs alg
      { st with timers := (checkTimers now.unix st.timers).2 } now hlat hlon hsr hss
    constructor
    · simp only [tick]
      split
      · exact hcte.1
      · exact ⟨hlat, hlon, hsr, hss⟩
    · intro e he
      have hgen : e.type = "*_*" ∨ e.type = anyHourPattern now.minute ∨
          e.type = anyMinutePattern now.hour ∨ e.type = fmtHM now.hour now.minute ∨
          e.type = "every_hour" := by
        simp only [tick] at he
        by_cases hsec : now.second = 0
        · rw [if_pos hsec] at he
          simp only [List.mem_append] at he
          rcases he with he | he
          · exact absurd he (by simp)
          · obtain ⟨ev, hev, heq⟩ := List.mem_map.1 he
            injection heq with hinj
            subst hinj
            rw [(checkTimeEvents_noCoords fs alg
              { st with timers := (checkTimers now.unix st.timers).2 } now
              hlat hlon hsr hss).2] at hev
            rw [List.mem_append] at hev
            rcases hev with hev | hev
            · split at hev
              · simp only [List.mem_append] at hev
                rcases hev with ((hh | hh) | hh) | hh
                · exact Or.inl (type_of_mem_checkAndTrigger hh)
                · exact Or.inr (Or.inl (type_of_mem_checkAndTrigger hh))
                · exact Or.inr (Or.inr (Or.inl (type_of_mem_checkAndTrigger hh)))
                · exact Or.inr (Or.inr (Or.inr (Or.inl
                    (type_of_mem_checkAndTrigger hh))))
              · cases hev
            · split at hev
              · exact Or.inr (Or.inr (Or.inr (Or.inr
                  (type_of_mem_checkAndTrigger hev))))
              · cases hev
        · rw [if_neg hsec] at he
          exact absurd he (by simp)
      exact generic_patterns_sunfree now.hour now.minute e.type hgen

theorem mem_checkAndTrigger_iff {fs : EventsFS} {p : String} {now : DateTime}
    {e : Event} : e ∈ checkAndTrigger fs p now ↔
      fs.handlerExists p = true ∧ e = timeEvent p now := by
  rw [checkAndTrigger]
  split
  · next h => simp [h]
  · next h => simp [h]

theorem mem_sunCheck_iff {fs : EventsFS} {o : Option SunTime} {p : String}
    {now : DateTime} {e : Event} : e ∈ sunCheck fs o p now ↔
      SunMatch o now ∧ fs.handlerExists p = true ∧ e = timeEvent p now := by
  rcases o with _ | t
  · simp [sunCheck, SunMatch]
  · simp only [sunCheck]
    split
    · next h =>
        rw [mem_checkAndTrigger_iff]
        simp [SunMatch, h.1, h.2, and_comm]
    · next h =>
        simp only [List.not_mem_nil, false_iff]
        rintro ⟨⟨t', ht', hh, hm⟩, _, _⟩
        cases ht'
        exact h ⟨hh, hm⟩

theorem mem_offsetDirEvents_iff {fs : EventsFS} {base : SunTime}
    {now : DateTime} {ps : String} {entries : Option (List DirEntry)}
    {e : Event} : e ∈ offsetDirEvents fs base now ps entries ↔
      ∃ es en, entries = some es ∧ en ∈ es ∧ en.isDir = true ∧
        ∃ off, parseOffset en.name = some off ∧
          (base.shift off).hour = now.hour ∧ (base.shift off).minute = now.minute ∧
          fs.handlerExists (ps ++ en.name) = true ∧
          e = timeEvent (ps ++ en.name) now := by
  rcases entries with _ | es
  · simp [offsetDirEvents]
  · rw [offsetDirEvents]
    rw [List.mem_filterMap]
    constructor
    · rintro ⟨en, hen, hsome⟩
      refine ⟨es, en, rfl, hen, ?_⟩
      split at hsome
      · next hdir =>
          split at hsome
          · next off hoff =>
              split at hsome
              · next hclock =>
                  split at hsome
                  · next hex =>
                      injection hsome with hsome
                      exact ⟨hdir, off, hoff, hclock.1, hclock.2, hex, hsome.symm⟩
                  · cases hsome
              · cases hsome
          · cases hsome
      · cases hsome
    · rintro ⟨es', en, hes, hen, hdir, off, hoff, hh, hm, hex, rfl⟩
      injection hes with hes
      subst hes
      refine ⟨en, hen, ?_⟩
      rw [if_pos hdir, hoff]
      show (if (base.shift off).hour = now.hour ∧
          (base.shift off).minute = now.minute then
        if fs.handlerExists (ps ++ en.name) = true then
          some (timeEvent (ps ++ en.name) now)
        else none
      else none) = some (timeEvent (ps ++ en.name) now)
      rw [if_pos ⟨hh, hm⟩, if_pos hex]

theorem mem_sunOffsetPair_iff {fs : EventsFS} {o1 o2 : Option SunTime}
    {now : DateTime} {e : Event} : e ∈ sunOffsetPair fs o1 o2 now ↔
      ∃ sr ss, o1 = some sr ∧ o2 = some ss ∧
        (e ∈ offsetDirEvents fs sr now "sunrise/" fs.sunriseEntries ∨
         e ∈ offsetDirEvents fs ss now "sunset/" fs.sunsetEntries) := by
  rcases o1 with _ | sr <;> rcases o2 with _ | ss <;>
    simp [sunOffsetPair, List.mem_append]

theorem timeEvent_type (p : String) (now : DateTime) :
    (timeEvent p now).type = p := rfl

theorem timeEvent_fields (p : String) (now : DateTime) :
    (timeEvent p now).source = "time" ∧
    lookupKey "time" (timeEvent p now).data = some (.int now.unix) ∧
    lookupKey "hour" (timeEvent p now).data = some (.int now.hour) ∧
    lookupKey "minute" (timeEvent p now).data = some (.int now.minute) ∧
    lookupKey "second" (timeEvent p now).data = some (.int now.second) ∧
    lookupKey "weekday" (timeEvent p now).data = some (.int now.weekday) :=
  ⟨rfl, rfl, rfl, rfl, rfl, rfl⟩

theorem emit_mem_fires_emits {fires : List String} {evs : List Event}
    {x : Event} :
    (SchedAction.emit x ∈ fires.map SchedAction.fire ++ evs.map SchedAction.emit)
      ↔ x ∈ evs := by
  simp [List.mem_append, List.mem_map]

/-- None of the claim's seven pattern positions is the undocumented
`every_hour` pattern. -/
theorem inSeven_ne_every_hour {fs : EventsFS} {now : DateTime} {p : String}
    (hp : InSevenPattern fs now p) : p ≠ "every_hour" := by
  rcases hp with rfl | rfl | rfl | rfl | rfl | rfl |
    ⟨es, en, _, _, _, rfl⟩ | ⟨es, en, _, _, _, rfl⟩
  · decide
  · exact string_ne_of_head
      (data_head_append (pad2 now.minute) (rfl : "*_".data = _)) rfl (by decide)
  · obtain ⟨c, cs, hd, hdig⟩ := pad2_data now.hour
    exact string_ne_of_head (data_head_append "_*" hd) rfl (isDigit_ne_e hdig)
  · obtain ⟨c, cs, hd, hdig⟩ := pad2_data now.hour
    have h1 : (pad2 now.hour ++ "_").data = c :: (cs ++ "_".data) :=
      data_head_append "_" hd
    exact string_ne_of_head (data_head_append (pad2 now.minute) h1)
      rfl (isDigit_ne_e hdig)
  · decide
  · decide
  · exact string_ne_of_head
      (data_head_append en.name (rfl : "sunrise/".data = _)) rfl (by decide)
  · exact string_ne_of_head
      (data_head_append en.name (rfl : "sunset/".data = _)) rfl (by decide)

/-! ## C6 — minute-boundary pattern events -/

/-- C6: at a whole-minute tick (second 0, minute changed), an event for
a pattern position `p` among `*_*`, `*_MM`, `HH_*`, `HH_MM`, `sunrise`,
`sunset` and the sunrise/sunset offset directories is routed exactly
when `p` matches the current clock (with the tick's effective sun
times) and a handler artifact exists at `p`; and every routed event
carries `source = time`, its pattern as type, and data with the time,
hour, minute, second and weekday. -/
theorem c6_minute_patterns (fs : EventsFS) (alg : SunCalc) (st : SchedState)
    (now : DateTime) (h0 : now.second = 0)
    (h1 : (now.minute : Int) ≠ st.lastMinute) :
    (∀ p, InSevenPattern fs now p →
      (SchedAction.emit (timeEvent p now) ∈ (tick fs alg st now).2 ↔
        ClaimMatches fs (effectiveSun alg st now) now p ∧
        fs.handlerExists p = true)) ∧
    (∀ e, SchedAction.emit e ∈ (tick fs alg st now).2 →
      e.source = "time" ∧
      lookupKey "time" e.data = some (.int now.unix) ∧
      lookupKey "hour" e.data = some (.int now.hour) ∧
      lookupKey "minute" e.data = some (.int now.minute) ∧
      lookupKey "second" e.data = some (.int now.second) ∧
      lookupKey "weekday" e.data = some (.int now.weekday)) := by
  have hsun : effectiveSun alg
      { st with timers := (checkTimers now.unix st.timers).2 } now =
      effectiveSun alg st now := rfl
  have hevs := (checkTimeEvents_spec fs alg
    { st with timers := (checkTimers now.unix st.timers).2 } now).2
  rw [hsun, if_pos h1] at hevs
  have hmem : ∀ x : Event, SchedAction.emit x ∈ (tick fs alg st now).2 ↔
      x ∈ (checkTimeEvents fs alg
        { st with timers := (checkTimers now.unix st.timers).2 } now).2 := by
    intro x
    simp only [tick]
    rw [if_pos h0]
    exact emit_mem_fires_emits
  constructor
  · intro p hp
    rw [hmem, hevs]
    simp only [List.mem_append]
    constructor
    · rintro (((((((hh | hh) | hh) | hh) | hh) | hh) | hh) | hh)
      · obtain ⟨hex, heq⟩ := mem_checkAndTrigger_iff.1 hh
        have hpq : p = "*_*" := congrArg Event.type heq
        subst hpq
        exact ⟨Or.inl rfl, hex⟩
      · obtain ⟨hex, heq⟩ := mem_checkAndTrigger_iff.1 hh
        have hpq : p = anyHourPattern now.minute := congrArg Event.type heq
        subst hpq
        exact ⟨Or.inr (Or.inl rfl), hex⟩
      · obtain ⟨hex, heq⟩ := mem_checkAndTrigger_iff.1 hh
        have hpq : p = anyMinutePattern now.hour := congrArg Event.type heq
        subst hpq
        exact ⟨Or.inr (Or.inr (Or.inl rfl)), hex⟩
      · obtain ⟨hex, heq⟩ := mem_checkAndTrigger_iff.1 hh
        have hpq : p = fmtHM now.hour now.minute := congrArg Event.type heq
        subst hpq
        exact ⟨Or.inr (Or.inr (Or.inr (Or.inl rfl))), hex⟩
      · obtain ⟨hsm, hex, heq⟩ := mem_sunCheck_iff.1 hh
        have hpq : p = "sunrise" := congrArg Event.type heq
        subst hpq
        exact ⟨Or.inr (Or.inr (Or.inr (Or.inr (Or.inl ⟨rfl, hsm⟩)))), hex⟩
      · obtain ⟨hsm, hex, heq⟩ := mem_sunCheck_iff.1 hh
        have hpq : p = "sunset" := congrArg Event.type heq
        subst hpq
        exact ⟨Or.inr (Or.inr (Or.inr (Or.inr (Or.inr (Or.inl ⟨rfl, hsm⟩))))), hex⟩
      · obtain ⟨sr, ss, hsr, hss, hoe⟩ := mem_sunOffsetPair_iff.1 hh
        rcases hoe with hoe | hoe
        · obtain ⟨es, en, hes, hen, hdir, off, hoff, hhh, hmm, hex, heq⟩ :=
            mem_offsetDirEvents_iff.1 hoe
          have hpq : p = "sunrise/" ++ en.name := congrArg Event.type heq
          subst hpq
          refine ⟨Or.inr (Or.inr (Or.inr (Or.inr (Or.inr (Or.inr (Or.inl
            ⟨en.name, rfl, es, en, sr, ss, off, hes, hen, hdir, rfl, hsr, hss,
              hoff, hhh, hmm⟩)))))), hex⟩
        · obtain ⟨es, en, hes, hen, hdir, off, hoff, hhh, hmm, hex, heq⟩ :=
            mem_offsetDirEvents_iff.1 hoe
          have hpq : p = "sunset/" ++ en.name := congrArg Event.type heq
          subst hpq
          refine ⟨Or.inr (Or.inr (Or.inr (Or.inr (Or.inr (Or.inr (Or.inr
            ⟨en.name, rfl, es, en, ss, sr, off, hes, hen, hdir, rfl, hss, hsr,
              hoff, hhh, hmm⟩)))))), hex⟩
      · obtain ⟨hex, heq⟩ := mem_checkAndTrigger_iff.1
          (by
            split at hh
            · exact hh
            · cases hh)
        exact absurd (congrArg Event.type heq) (inSeven_ne_every_hour hp)
    · rintro ⟨hmat, hex⟩
      rcases hmat with rfl | rfl | rfl | rfl | ⟨rfl, hsm⟩ | ⟨rfl, hsm⟩ |
        ⟨name, rfl, es, en, b, o2, off, hes, hen, hdir, hn, hb, ho, hoff, hhh, hmm⟩ |
        ⟨name, rfl, es, en, b, o2, off, hes, hen, hdir, hn, hb, ho, hoff, hhh, hmm⟩
      · exact Or.inl (Or.inl (Or.inl (Or.inl (Or.inl (Or.inl (Or.inl
          (mem_checkAndTrigger_iff.2 ⟨hex, rfl⟩)))))))
      · exact Or.inl (Or.inl (Or.inl (Or.inl (Or.inl (Or.inl (Or.inr
          (mem_checkAndTrigger_iff.2 ⟨hex, rfl⟩)))))))
      · exact Or.inl (Or.inl (Or.inl (Or.inl (Or.inl (Or.inr
          (mem_checkAndTrigger_iff.2 ⟨hex, rfl⟩))))))
      · exact Or.inl (Or.inl (Or.inl (Or.inl (Or.inr
          (mem_checkAndTrigger_iff.2 ⟨hex, rfl⟩)))))
      · exact Or.inl (Or.inl (Or.inl (Or.inr
          (mem_sunCheck_iff.2 ⟨hsm, hex, rfl⟩))))
      · exact Or.inl (Or.inl (Or.inr (mem_sunCheck_iff.2 ⟨hsm, hex, rfl⟩)))
      · refine Or.inl (Or.inr (mem_sunOffsetPair_iff.2
          ⟨b, o2, hb, ho, Or.inl (mem_offsetDirEvents_iff.2
            ⟨es, en, hes, hen, hdir, off, by rw [hn]; exact hoff, hhh, hmm,
              by rw [hn]; exact hex, by rw [hn]⟩)⟩))
      · refine Or.inl (Or.inr (mem_sunOffsetPair_iff.2
          ⟨o2, b, ho, hb, Or.inr (mem_offsetDirEvents_iff.2
            ⟨es, en, hes, hen, hdir, off, by rw [hn]; exact hoff, hhh, hmm,
              by rw [hn]; exact hex, by rw [hn]⟩)⟩))
  · intro e he
    rw [hmem, hevs] at he
    simp only [List.mem_append] at he
    have hq : ∃ q, e = timeEvent q now := by
      rcases he with (((((((hh | hh) | hh) | hh) | hh) | hh) | hh) | hh)
      · exact ⟨_, (mem_checkAndTrigger_iff.1 hh).2⟩
      · exact ⟨_, (mem_checkAndTrigger_iff.1 hh).2⟩
      · exact ⟨_, (mem_checkAndTrigger_iff.1 hh).2⟩
      · exact ⟨_, (mem_checkAndTrigger_iff.1 hh).2⟩
      · exact ⟨_, (mem_sunCheck_iff.1 hh).2.2⟩
      · exact ⟨_, (mem_sunCheck_iff.1 hh).2.2⟩
      · obtain ⟨sr, ss, _, _, hoe⟩ := mem_sunOffsetPair_iff.1 hh
        rcases hoe with hoe | hoe
        · obtain ⟨es, en, _, _, _, off, _, _, _, _, heq⟩ :=
            mem_offsetDirEvents_iff.1 hoe
          exact ⟨_, heq⟩
        · obtain ⟨es, en, _, _, _, off, _, _, _, _, heq⟩ :=
            mem_offsetDirEvents_iff.1 hoe
          exact ⟨_, heq⟩
      · split at hh
        · exact ⟨_, (mem_checkAndTrigger_iff.1 hh).2⟩
        · cases hh
    obtain ⟨q, rfl⟩ := hq
    exact timeEvent_fields q now

/-- Witness for C6 at the fixture tick (second 0, minute changed). -/
theorem c6_minute_patterns_witness :
    fixNow.second = 0 ∧ ((fixNow.minute : Int) ≠ fixState.lastMinute) ∧
    (SchedAction.emit (timeEvent "*_*" fixNow) ∈
        (tick fixFS fixAlg fixState fixNow).2 ↔
      ClaimMatches fixFS (effectiveSun fixAlg fixState fixNow) fixNow "*_*" ∧
      fixFS.handlerExists "*_*" = true) :=
  ⟨rfl, by decide,
    (c6_minute_patterns fixFS fixAlg fixState fixNow rfl (by decide)).1 "*_*"
      (Or.inl rfl)⟩

/-- Witness for C3 at a concrete no-coordinate scheduler tick. -/
theorem c3_no_coordinates_witness :
    ((tick fixFS fixAlg fixState fixNow).1.sunriseTime = none ∧
      (timeEvent "*_*" fixNow).type ≠ "sunrise") :=
  ⟨((c3_no_coordinates.2 fixFS fixAlg fixState fixNow rfl rfl rfl rfl).1.2.2.1),
    ((c3_no_coordinates.2 fixFS fixAlg fixState fixNow rfl rfl rfl rfl).2
      (timeEvent "*_*" fixNow)
      (by
        have h : (tick fixFS fixAlg fixState fixNow).2 =
            [.fire "t1", .emit (timeEvent "*_*" fixNow)] := rfl
        rw [h]
        simp)).1⟩

/-! ## C2 — tick ordering -/

/-- C2 counterexample: in a tick at second zero with one due timer and
a `*_*` handler, the timer callback is dispatched *before* the time
event is enqueued (the action list begins with the fire), contradicting
the claim that all time events of a tick are enqueued before any due
timer fires. -/
theorem c2_counterexample :
    (tick fixFS fixAlg fixState fixNow).2 =
      [.fire "t1", .emit (timeEvent "*_*" fixNow)] ∧
    ((tick fixFS fixAlg fixState fixNow).2)[0]? = some (.fire "t1") ∧
    ((tick fixFS fixAlg fixState fixNow).2)[1]? =
      some (.emit (timeEvent "*_*" fixNow)) := by
  refine ⟨rfl, rfl, rfl⟩

/-- C2 (amended): within a single tick the due timer callbacks — the
timers with `trigger_time ≤ now` that carry a callback, taken in the
timer map's (unspecified) iteration order, not sorted by trigger time
or id — are all dispatched *before* any time event of the tick is
enqueued to the router. -/
theorem c2_tick_order :
    ∀ fs alg st now,
      (∃ evs : List Event, (tick fs alg st now).2 =
        ((st.timers.filter fun t => t.triggerTime ≤ now.unix && t.hasCallback).map
          (fun t => t.id)).map SchedAction.fire ++ evs.map SchedAction.emit) ∧
      (∀ (i j : Nat) (a : Event) (b : String),
        ((tick fs alg st now).2)[i]? = some (SchedAction.emit a) →
        ((tick fs alg st now).2)[j]? = some (SchedAction.fire b) → j < i) := by
  intro fs alg st now
  have hdecomp : ∃ evs : List Event, (tick fs alg st now).2 =
      ((st.timers.filter fun t => t.triggerTime ≤ now.unix && t.hasCallback).map
        (fun t => t.id)).map SchedAction.fire ++ evs.map SchedAction.emit := by
    simp only [tick]
    split
    · exact ⟨(checkTimeEvents fs alg { st with
        timers := (checkTimers now.unix st.timers).2 } now).2,
        by rw [checkTimers_fires]⟩
    · exact ⟨[], by rw [checkTimers_fires]; simp⟩
  refine ⟨hdecomp, ?_⟩
  intro i j a b he hf
  obtain ⟨evs, heq⟩ := hdecomp
  rw [heq] at he hf
  have h1 := emit_index_ge he
  have h2 := fire_index_lt hf
  omega

/-- Witness for C2's amended theorem on the fixture tick. -/
theorem c2_tick_order_witness :
    ((tick fixFS fixAlg fixState fixNow).2)[1]? =
      some (.emit (timeEvent "*_*" fixNow)) ∧
    ((tick fixFS fixAlg fixState fixNow).2)[0]? = some (.fire "t1") ∧
    (0 : Nat) < 1 :=
  ⟨rfl, rfl,
    (c2_tick_order fixFS fixAlg fixState fixNow).2 1 0
      (timeEvent "*_*" fixNow) "t1" rfl rfl⟩

/-- Witness for C1 at a tracker with one outstanding timer. -/
theorem c1_interpreter_lifetime_witness :
    (0 < (Tracker.mk 0 1 true).activeTimers ∧
      releaseStateReference (.tracked ⟨0, 1, true⟩) ≠ .closedAndRemoved) :=
  ⟨by decide, c1_interpreter_lifetime.2.1 ⟨0, 1, true⟩ (by decide)⟩

end HS
